import Mathlib

/-!
Verification development for the command-t fuzzy-matching scorer
(src/ruby/command-t/match.c).

Strings are modelled as lists of byte values (ℕ); the C `double` scores are
modelled as exact rational arithmetic.  Because `Rat` operations do not reduce
inside the kernel, scores are carried by `Frac`, an executable fraction type
normalized with a fuel-based gcd; `Frac.toRat` is the denotation used in the
statements of the theorems.

The memo table is modelled as a list of optional cells; each written cell also
records the (needle_idx, haystack_idx) pair that wrote it, and the run records
two instrumentation flags that do not influence the computed score:
`collision` (a memo read returned a value written for a different index pair)
and `oob` (a memo access fell outside the allocated table, which in the C
original is an out-of-bounds access into a stack array).
-/

namespace CommandT

/-- Fuel-based Euclidean gcd; the fuel makes it structurally recursive so the
kernel can evaluate it.  `gcdFuel (a + 1) a b` computes `Nat.gcd a b`. -/
def gcdFuel : ℕ → ℕ → ℕ → ℕ
  | 0, _, b => b
  | _ + 1, 0, b => b
  | f + 1, a + 1, b => gcdFuel f (b % (a + 1)) (a + 1)

/-- Executable gcd used to normalize fractions. -/
def natGcd (a b : ℕ) : ℕ := gcdFuel (a + 1) a b

/-- Exact fraction: numerator and denominator.  All fractions produced by the
smart constructor `Frac.norm` on a nonzero denominator are reduced and have a
positive denominator, so structural equality coincides with value equality and
the cross-multiplication order coincides with the rational order. -/
structure Frac where
  num : ℤ
  den : ℤ
  deriving DecidableEq

/-- Denotation of a fraction as a rational number. -/
def Frac.toRat (x : Frac) : ℚ := (x.num : ℚ) / (x.den : ℚ)

/-- Normalize a fraction: make the denominator positive and divide through by
the gcd.  A zero denominator (which in this development only arises on dead
code paths) is preserved as-is. -/
def Frac.norm (n d : ℤ) : Frac :=
  if d = 0 then ⟨n, 0⟩
  else
    let s : ℤ := if d < 0 then -1 else 1
    let n1 := s * n
    let d1 := s * d
    let g : ℤ := (natGcd n1.natAbs d1.natAbs : ℕ)
    ⟨n1 / g, d1 / g⟩

/-- Addition of exact fractions. -/
def Frac.add (x y : Frac) : Frac := Frac.norm (x.num * y.den + y.num * x.den) (x.den * y.den)

/-- Multiplication of exact fractions. -/
def Frac.mul (x y : Frac) : Frac := Frac.norm (x.num * y.num) (x.den * y.den)

/-- Division of exact fractions. -/
def Frac.div (x y : Frac) : Frac := Frac.norm (x.num * y.den) (x.den * y.num)

/-- Strict order by cross multiplication; on fractions with positive
denominators this is the rational order. -/
def Frac.lt (x y : Frac) : Prop := x.num * y.den < y.num * x.den

instance (x y : Frac) : Decidable (Frac.lt x y) := by
  unfold Frac.lt; infer_instance

/-- The `NON_MATCH` sentinel from match.c (`#define NON_MATCH -1e9`). -/
def NON_MATCH : Frac := ⟨-1000000000, 1⟩

/-- ASCII downcasing of a byte, as in match.c (`c + 'a' - 'A'` for A–Z). -/
def downcase (c : ℕ) : ℕ := if 65 ≤ c ∧ c ≤ 90 then c + 32 else c

/-- The case rule of the pre-scan: haystack characters are downcased exactly
when matching is case-insensitive (match.c lines 172–175). -/
def foldCase (caseSensitive : Bool) (c : ℕ) : ℕ :=
  if caseSensitive then c else downcase c

/-- One bitmask accumulation step, `mask |= (1 << (lower - 'a'))` from match.c
line 177.  A shift amount outside 0–30 is undefined behaviour for a C `int`
shift, modelled by collapsing the mask to `none` (unspecified). -/
def maskOr (mask : Option ℕ) (lower : ℕ) : Option ℕ :=
  match mask with
  | none => none
  | some m => if 97 ≤ lower ∧ lower ≤ 127 then some (m ||| 2 ^ (lower - 97)) else none

/-- The bitmask component of the pre-scan in isolation: it folds `maskOr` over
the scanned characters and is unaffected by the needle cursor. -/
def maskScan (cb : Bool) : Option ℕ → List ℕ → Option ℕ
  | mask, [] => mask
  | mask, c0 :: rest => maskScan cb (if cb then maskOr mask (downcase c0) else mask) rest

/-- State threaded through the backward pre-scan of match.c lines 166–187:
the rightmost-match entries recorded so far (the entry for needle position k
ends in position k of the list once the scan has matched down to k), the
needle cursor, and the haystack bitmask being accumulated. -/
structure ScanState where
  rightmost : List ℕ
  needleIdx : ℤ
  mask : Option ℕ
  deriving DecidableEq

/-- The backward pre-scan loop of match.c lines 170–187.  The first argument
list is the reverse of the not-yet-scanned haystack prefix and `i` is the
haystack index of its head. -/
def prescanAux (cs cb : Bool) (needle : List ℕ) : List ℕ → ℕ → ScanState → ScanState
  | [], _, st => st
  | c0 :: rest, i, st =>
      let lower := downcase c0
      let c := if cs then c0 else lower
      let mask := if cb then maskOr st.mask lower else st.mask
      let st1 : ScanState :=
        if 0 ≤ st.needleIdx then
          let d := needle.getD st.needleIdx.toNat 0
          if c = d then ⟨i :: st.rightmost, st.needleIdx - 1, mask⟩
          else ⟨st.rightmost, st.needleIdx, mask⟩
        else ⟨st.rightmost, st.needleIdx, mask⟩
      prescanAux cs cb needle rest (i - 1) st1

/-- The full backward pre-scan: haystack processed from its last index down to
index 0, needle cursor starting at the last needle index, mask starting at 0. -/
def prescan (cs cb : Bool) (needle haystack : List ℕ) : ScanState :=
  prescanAux cs cb needle haystack.reverse (haystack.length - 1)
    ⟨[], (needle.length : ℤ) - 1, some 0⟩

/-- The zero-length-needle dot-file filter of match.c lines 148–155: scans for
a `.` that is at index 0 or preceded by `/`, carrying the previous character. -/
def dotFileScan : Option ℕ → List ℕ → Bool
  | prev, c :: rest =>
      (decide (c = 46) && (prev.isNone || decide (prev = some 47))) || dotFileScan (some c) rest
  | _, [] => false

/-- The shareable per-call data of match.c (`matchinfo_t`). -/
structure MatchInfo where
  haystack : List ℕ
  needle : List ℕ
  rightmost : List ℕ
  maxScorePerChar : Frac
  alwaysShowDotFiles : Bool
  neverShowDotFiles : Bool
  caseSensitive : Bool
  computeAllScorings : Bool

/-- Mutable state of one scoring call: the memo table (cells also remember the
writing pair) plus the two instrumentation flags. -/
structure ScoreState where
  memo : List (Option (Frac × ℕ × ℕ))
  oob : Bool
  collision : Bool

/-- Memo read at flattened index `idx` on behalf of pair `(nIdx, hIdx)`,
match.c lines 48–50.  A read outside the table sets `oob` and behaves like an
unset cell; a read of a cell written for a different pair sets `collision`. -/
def memoRead (s : ScoreState) (idx nIdx hIdx : ℕ) : Option Frac × ScoreState :=
  if idx < s.memo.length then
    match s.memo.getD idx none with
    | none => (none, s)
    | some (v, p) =>
        (some v, { s with collision := s.collision || decide (p ≠ (nIdx, hIdx)) })
  else (none, { s with oob := true })

/-- Memo write at flattened index `idx` by pair `(nIdx, hIdx)`.  A write
outside the table sets `oob` and is dropped. -/
def memoWrite (s : ScoreState) (idx nIdx hIdx : ℕ) (v : Frac) : ScoreState :=
  if idx < s.memo.length then
    { s with memo := s.memo.set idx (some (v, nIdx, hIdx)) }
  else { s with oob := true }

/-- The candidate-position loop of `recursive_match` (match.c lines 57–116).
`recur` is the recursive scorer one needle position deeper, `count` the number
of remaining iterations (the C loop runs `i` up to the rightmost bound), and
`score` the best score so far.  The middle component of the result is true
when the loop performed the dot-file-wall early return of lines 59–67, which
discards `score` and makes the whole call a `NON_MATCH`. -/
def scoreLoop (m : MatchInfo) (recur : ℕ → ℕ → ScoreState → Frac × ScoreState)
    (needleIdx haystackIdx c : ℕ) : ℕ → ℕ → Frac → ScoreState → Frac × Bool × ScoreState
  | _, 0, score, s => (score, false, s)
  | i, count + 1, score, s =>
      let d0 := m.haystack.getD i 0
      if d0 = 46 ∧ (i = 0 ∨ m.haystack.getD (i - 1) 0 = 47) ∧
          (m.neverShowDotFiles = true ∨ (¬c = 46 ∧ m.alwaysShowDotFiles = false)) then
        (score, true, s)
      else
        let d := if 65 ≤ d0 ∧ d0 ≤ 90 ∧ m.caseSensitive = false then d0 + 32 else d0
        if c = d then
          let distance := i - haystackIdx
          let scoreForChar :=
            if 1 < distance then
              let last := m.haystack.getD (i - 1) 0
              let curr := m.haystack.getD i 0
              let factor : Frac :=
                if last = 47 then ⟨9, 10⟩
                else if last = 45 ∨ last = 95 ∨ last = 32 ∨ (48 ≤ last ∧ last ≤ 57) then
                  ⟨4, 5⟩
                else if (97 ≤ last ∧ last ≤ 122) ∧ (65 ≤ curr ∧ curr ≤ 90) then ⟨4, 5⟩
                else if last = 46 then ⟨7, 10⟩
                else Frac.mul (Frac.div ⟨1, 1⟩ ⟨(distance : ℤ), 1⟩) ⟨3, 4⟩
              Frac.mul m.maxScorePerChar factor
            else m.maxScorePerChar
          let r1 := recur (i + 1) (needleIdx + 1) s
          let newScore := Frac.add scoreForChar r1.1
          if Frac.lt score newScore then
            if m.computeAllScorings = true then
              scoreLoop m recur needleIdx haystackIdx c (i + 1) count newScore r1.2
            else (newScore, false, r1.2)
          else scoreLoop m recur needleIdx haystackIdx c (i + 1) count score r1.2
        else scoreLoop m recur needleIdx haystackIdx c (i + 1) count score s

/-- The memoized recursive scorer `recursive_match` of match.c lines 27–118.
The extra fuel argument makes the recursion structural; every recursive call
consumes one needle position, so fuel `needle_len + 1` is always enough. -/
def recursive_match (m : MatchInfo) : ℕ → ℕ → ℕ → ScoreState → Frac × ScoreState
  | 0, _, _, s => (NON_MATCH, s)
  | fuel + 1, haystackIdx, needleIdx, s =>
      if needleIdx = m.needle.length then (⟨0, 1⟩, s)
      else if needleIdx > haystackIdx ∨
          haystackIdx + (m.needle.length - needleIdx) >
            m.rightmost.getD (m.needle.length - 1) 0 + 1 then
        (NON_MATCH, s)
      else
        let idx := needleIdx * m.needle.length + haystackIdx
        let rd := memoRead s idx needleIdx haystackIdx
        match rd.1 with
        | some v => (v, rd.2)
        | none =>
            if needleIdx = m.needle.length then
              (⟨0, 1⟩, memoWrite rd.2 idx needleIdx haystackIdx ⟨0, 1⟩)
            else
              let c := m.needle.getD needleIdx 0
              let bound := m.rightmost.getD needleIdx 0
              let lp := scoreLoop m (fun h n st => recursive_match m fuel h n st)
                needleIdx haystackIdx c haystackIdx (bound + 1 - haystackIdx) NON_MATCH rd.2
              if lp.2.1 = true then
                (NON_MATCH, memoWrite lp.2.2 idx needleIdx haystackIdx NON_MATCH)
              else (lp.1, memoWrite lp.2.2 idx needleIdx haystackIdx lp.1)

/-- The final sentinel conversion of match.c line 211:
`return score == NON_MATCH ? 0.0 : score`. -/
def finishScore (sc : Frac) : Frac := if sc = NON_MATCH then ⟨0, 1⟩ else sc

/-- Result of one scoring call: the returned score, the reported haystack
bitmask (`none` when its computation performed an undefined shift), and the
instrumentation flags of the run. -/
structure MatchResult where
  score : Frac
  outMask : Option ℕ
  oob : Bool
  collision : Bool
  scorerInvoked : Bool

/-- The top-level entry point `calculate_match` of match.c lines 120–212
(the spec calls this operation `score_match`).  Arguments follow the C
signature: haystack, needle, the four option booleans, the needle bitmask and
the in/out haystack bitmask (0 is the unset sentinel). -/
def calculate_match (haystack needle : List ℕ)
    (caseSensitive alwaysShowDotFiles neverShowDotFiles computeAllScorings : Bool)
    (needleBitmask haystackBitmask : ℕ) : MatchResult :=
  let computeBitmasks := haystackBitmask = 0
  if needle.length = 0 then
    if alwaysShowDotFiles = false then
      if dotFileScan none haystack = true then
        ⟨⟨0, 1⟩, some haystackBitmask, false, false, false⟩
      else ⟨finishScore ⟨1, 1⟩, some haystackBitmask, false, false, false⟩
    else ⟨finishScore ⟨1, 1⟩, some haystackBitmask, false, false, false⟩
  else if 0 < haystack.length then
    if ¬haystackBitmask = 0 ∧ ¬Nat.land needleBitmask haystackBitmask = needleBitmask then
      ⟨⟨0, 1⟩, some haystackBitmask, false, false, false⟩
    else
      let st := prescan caseSensitive computeBitmasks needle haystack
      let outMask := if computeBitmasks then st.mask else some haystackBitmask
      if ¬st.needleIdx = -1 then ⟨⟨0, 1⟩, outMask, false, false, false⟩
      else
        let L := needle.length
        let haystackLimit := st.rightmost.getD (L - 1) 0 + 1
        let memoSize : ℤ := (haystackLimit : ℤ) * L - ((L : ℤ) * L - L)
        let m : MatchInfo :=
          ⟨haystack, needle, st.rightmost,
            Frac.div
              (Frac.add (Frac.div ⟨1, 1⟩ ⟨(haystack.length : ℤ), 1⟩)
                (Frac.div ⟨1, 1⟩ ⟨(needle.length : ℤ), 1⟩))
              ⟨2, 1⟩,
            alwaysShowDotFiles, neverShowDotFiles, caseSensitive, computeAllScorings⟩
        let run := recursive_match m (L + 1) 0 0 ⟨List.replicate memoSize.toNat none, false, false⟩
        ⟨finishScore run.1, outMask, run.2.oob, run.2.collision, true⟩
  else ⟨finishScore ⟨1, 1⟩, some haystackBitmask, false, false, false⟩

end CommandT

namespace CommandT

/-- Denotation of an explicit fraction. -/
theorem Frac.toRat_mk (a b : ℤ) : Frac.toRat ⟨a, b⟩ = (a : ℚ) / (b : ℚ) := rfl

/-- The final sentinel conversion leaves the score 1 unchanged. -/
theorem finishScore_one : finishScore ⟨1, 1⟩ = ⟨1, 1⟩ := by decide

/-- Denotation of the fraction one. -/
theorem toRat_one : Frac.toRat ⟨1, 1⟩ = 1 := by
  rw [Frac.toRat_mk]; norm_num

/-- Denotation of the fraction zero. -/
theorem toRat_zero : Frac.toRat ⟨0, 1⟩ = 0 := by
  rw [Frac.toRat_mk]; norm_num

/-- C1: refuted as stated — with needle "ab", haystack "a/.b" and
`never_show_dot_files` set, the recursive scorer adds the per-character
contribution 3/8 to a `NON_MATCH`-valued recursive result, and the huge
negative sentinel-contaminated value 3/8 − 10⁹ is returned to the caller, far
outside [0, 1]. -/
theorem c1_sentinel_leaks_eval :
    (calculate_match [97, 47, 46, 98] [97, 98] false false true false 3 3).score.toRat
        = 3 / 8 - 1000000000 ∧
      (calculate_match [97, 47, 46, 98] [97, 98] false false true false 3 3).score.toRat < 0 := by
  have h : (calculate_match [97, 47, 46, 98] [97, 98] false false true false 3 3).score
      = ⟨-7999999997, 8⟩ := by decide
  rw [h, Frac.toRat_mk]
  norm_num

/-- C2: counterexample — with an empty needle and haystack "git" (no dot
file), `calculate_match` returns 1, not 0 as the claim states. -/
theorem c2_empty_needle_counterexample :
    (calculate_match [103, 105, 116] [] false false false false 0 0).score.toRat = 1 ∧
      (calculate_match [103, 105, 116] [] false false false false 0 0).score.toRat ≠ 0 := by
  have h : (calculate_match [103, 105, 116] [] false false false false 0 0).score
      = ⟨1, 1⟩ := by decide
  rw [h, toRat_one]
  norm_num

/-- C2 amended: with an empty needle the call returns 0 exactly when
`always_show_dot_files` is false and the haystack has a path-segment-initial
dot, and returns 1 (not 0) otherwise; `never_show_dot_files` plays no role. -/
theorem c2_empty_needle_amended (haystack : List ℕ) (cs a n ca : Bool) (nb hb : ℕ) :
    (calculate_match haystack [] cs a n ca nb hb).score.toRat =
      if a = false ∧ dotFileScan none haystack = true then 0 else 1 := by
  cases a <;> cases hd : dotFileScan none haystack <;>
    simp [calculate_match, hd, finishScore_one, toRat_one, toRat_zero]

/-- C3: counterexample — with needle "a" and an empty haystack,
`calculate_match` returns 1, not 0 as the claim states. -/
theorem c3_empty_haystack_counterexample :
    (calculate_match [] [97] false false false false 0 0).score.toRat = 1 ∧
      (calculate_match [] [97] false false false false 0 0).score.toRat ≠ 0 := by
  have h : (calculate_match [] [97] false false false false 0 0).score = ⟨1, 1⟩ := by decide
  rw [h, toRat_one]
  norm_num

/-- C3 amended: for every non-empty needle paired with an empty haystack,
both the empty-needle branch and the normal branch are skipped and the
initial score 1 is returned. -/
theorem c3_empty_haystack_amended (needle : List ℕ) (hne : needle ≠ [])
    (cs a n ca : Bool) (nb hb : ℕ) :
    (calculate_match [] needle cs a n ca nb hb).score.toRat = 1 := by
  cases needle with
  | nil => exact absurd rfl hne
  | cons x xs => simp [calculate_match, finishScore_one, toRat_one]

/-- C3 witness: the amended theorem applied at needle "a". -/
theorem c3_empty_haystack_amended_witness :
    (calculate_match [] [97] false false false false 0 0).score.toRat = 1 :=
  c3_empty_haystack_amended [97] (by decide) false false false false 0 0

/-- C4: counterexample — with case-insensitive matching, uppercase needle "A"
does not match lowercase haystack "a": the score is 0, not nonzero as the
claim states, because folding is applied to the haystack character only. -/
theorem c4_case_fold_counterexample :
    (calculate_match [97] [65] false false false false 1 1).score.toRat = 0 := by
  have h : (calculate_match [97] [65] false false false false 1 1).score = ⟨0, 1⟩ := by decide
  rw [h, toRat_zero]

/-- C4 amended: with case-insensitive matching, ASCII case folding is applied
to the haystack character only, so a lowercase needle "a" matches uppercase
haystack "A" (score 1) while an uppercase needle "A" does not match lowercase
haystack "a" (score 0). -/
theorem c4_case_fold_amended :
    (calculate_match [65] [97] false false false false 1 1).score.toRat = 1 ∧
      (calculate_match [97] [65] false false false false 1 1).score.toRat = 0 := by
  constructor
  · have h : (calculate_match [65] [97] false false false false 1 1).score = ⟨1, 1⟩ := by decide
    rw [h, toRat_one]
  · have h : (calculate_match [97] [65] false false false false 1 1).score = ⟨0, 1⟩ := by decide
    rw [h, toRat_zero]

/-- C6: with needle "aab", haystack "aaaaaaab" and exhaustive scoring, the
reachable pairs (1,5) and (2,2) both flatten to memo index 8, and a memo read
returns a value stored for a different pair: the run's collision flag is set
while every access stays inside the table. -/
theorem c6_memo_collision_eval :
    (calculate_match [97, 97, 97, 97, 97, 97, 97, 98] [97, 97, 98]
        false false false true 3 3).collision = true ∧
      (calculate_match [97, 97, 97, 97, 97, 97, 97, 98] [97, 97, 98]
        false false false true 3 3).oob = false := by
  decide

/-- C7: with needle "abc" and haystack "xabc" the scorer reaches the pair
(needle_idx, haystack_idx) = (2, 3), whose flattened index 2·3+3 = 9 falls
outside the allocated memo table of size 4·3 − (9 − 3) = 6: the run performs
an out-of-bounds memo access. -/
theorem c7_memo_oob_eval :
    (calculate_match [120, 97, 98, 99] [97, 98, 99]
      false false false false 7 8388615).oob = true := by
  decide

/-- C8: counterexample — with the haystack signature requested (sentinel 0
passed), haystack "a{" reports signature 2²⁶ + 1, which has bit 26 set, a bit
outside the 26 letter positions. -/
theorem c8_signature_counterexample :
    (calculate_match [97, 123] [97] false false false false 1 0).outMask = some 67108865 ∧
      Nat.testBit 67108865 26 = true := by
  decide

/-- C9: refuted — for haystack "a/.a" and needle "a", the call with
exhaustive scoring enabled returns 0 while the call with it disabled returns
5/8: the exhaustive scan keeps going past the found match, runs into the
path-segment-initial dot at index 2, and the dot-file wall discards the
already-found score. -/
theorem c9_exhaustive_not_monotone_eval :
    (calculate_match [97, 47, 46, 97] [97] false false false true 1 1).score.toRat = 0 ∧
      (calculate_match [97, 47, 46, 97] [97] false false false false 1 1).score.toRat = 5 / 8 ∧
      (calculate_match [97, 47, 46, 97] [97] false false false true 1 1).score.toRat <
        (calculate_match [97, 47, 46, 97] [97] false false false false 1 1).score.toRat := by
  have h1 : (calculate_match [97, 47, 46, 97] [97] false false false true 1 1).score
      = ⟨0, 1⟩ := by decide
  have h2 : (calculate_match [97, 47, 46, 97] [97] false false false false 1 1).score
      = ⟨5, 8⟩ := by decide
  rw [h1, h2, toRat_zero, Frac.toRat_mk]
  norm_num

/-- C10: confirmed — with `never_show_dot_files` set, needle "." against
haystack ".git/config" scores 0 for both values of `always_show_dot_files`
(and of the other two option booleans): the path-segment-initial dot is a
hard wall that makes the whole call a non-match. -/
theorem c10_dot_wall (a cs ca : Bool) :
    (calculate_match [46, 103, 105, 116, 47, 99, 111, 110, 102, 105, 103] [46]
      cs a true ca 0 0).score.toRat = 0 := by
  have h : ∀ (a1 cs1 ca1 : Bool),
      (calculate_match [46, 103, 105, 116, 47, 99, 111, 110, 102, 105, 103] [46]
        cs1 a1 true ca1 0 0).score = ⟨0, 1⟩ := by decide
  rw [h a cs ca, toRat_zero]

end CommandT

namespace CommandT


/-- Splitting a take at its last element, phrased with the default-valued
indexing the embedding uses. -/
theorem take_succ_getD : ∀ (l : List ℕ) (n : ℕ), n < l.length →
    l.take (n + 1) = l.take n ++ [l.getD n 0]
  | [], n, h => by simp at h
  | x :: xs, 0, _ => by simp
  | x :: xs, n + 1, h => by
      have ih := take_succ_getD xs n (by simpa using h)
      simp [List.take_succ_cons, ih]

/-- Soundness of the backward pre-scan: when the needle cursor reaches −1,
the part of the needle it consumed is a subsequence of the case-folded scanned
haystack prefix. -/
theorem prescanAux_sublist (cs cb : Bool) (needle : List ℕ) :
    ∀ (l : List ℕ) (i : ℕ) (rm : List ℕ) (ni : ℤ) (mask : Option ℕ),
    -1 ≤ ni → ni < (needle.length : ℤ) →
    (prescanAux cs cb needle l i ⟨rm, ni, mask⟩).needleIdx = -1 →
    List.Sublist (needle.take (ni + 1).toNat) (l.reverse.map (foldCase cs))
  | [], i, rm, ni, mask, h1, _, hfin => by
      simp only [prescanAux] at hfin
      have : ni = -1 := hfin
      subst this
      simp
  | c0 :: rest, i, rm, ni, mask, h1, h2, hfin => by
      simp only [prescanAux] at hfin
      by_cases h0 : (0 : ℤ) ≤ ni
      · by_cases hm : (if cs then c0 else downcase c0) = needle.getD ni.toNat 0
        · rw [if_pos h0, if_pos hm] at hfin
          have ih := prescanAux_sublist cs cb needle rest (i - 1) (i :: rm) (ni - 1)
            (if cb then maskOr mask (downcase c0) else mask) (by omega) (by omega) hfin
          have hnat : (ni - 1 + 1).toNat = ni.toNat := by omega
          rw [hnat] at ih
          have hsplit : needle.take ((ni + 1).toNat) =
              needle.take ni.toNat ++ [needle.getD ni.toNat 0] := by
            have h3 : (ni + 1).toNat = ni.toNat + 1 := by omega
            rw [h3]
            exact take_succ_getD needle ni.toNat (by omega)
          rw [hsplit, List.reverse_cons, List.map_append]
          refine List.Sublist.append ih ?_
          have hfc : foldCase cs c0 = needle.getD ni.toNat 0 := hm
          simp [hfc]
        · rw [if_pos h0, if_neg hm] at hfin
          have ih := prescanAux_sublist cs cb needle rest (i - 1) rm ni
            (if cb then maskOr mask (downcase c0) else mask) h1 h2 hfin
          rw [List.reverse_cons, List.map_append]
          exact ih.trans (List.sublist_append_left _ _)
      · rw [if_neg h0] at hfin
        have ih := prescanAux_sublist cs cb needle rest (i - 1) rm ni
          (if cb then maskOr mask (downcase c0) else mask) h1 h2 hfin
        rw [List.reverse_cons, List.map_append]
        exact ih.trans (List.sublist_append_left _ _)

/-- When the pre-scan completes, the needle is a subsequence of the
case-folded haystack. -/
theorem prescan_sublist (cs cb : Bool) (needle haystack : List ℕ)
    (h : (prescan cs cb needle haystack).needleIdx = -1) :
    List.Sublist needle (haystack.map (foldCase cs)) := by
  have := prescanAux_sublist cs cb needle haystack.reverse (haystack.length - 1) []
    ((needle.length : ℤ) - 1) (some 0) (by omega) (by omega) h
  rw [List.reverse_reverse] at this
  have hnat : ((needle.length : ℤ) - 1 + 1).toNat = needle.length := by omega
  rw [hnat, List.take_length] at this
  exact this

/-- C5 amended: for every non-empty haystack, if the needle (with the case
folding the code applies to haystack characters) is not a subsequence of the
haystack, `calculate_match` returns 0 and the recursive scorer is never
invoked.  The original claim quantified over empty haystacks as well, where
the result is 1 (see C3). -/
theorem c5_not_subsequence_amended (haystack needle : List ℕ) (cs a n ca : Bool) (nb hb : ℕ)
    (hhay : haystack ≠ [])
    (hsub : ¬ List.Sublist needle (haystack.map (foldCase cs))) :
    (calculate_match haystack needle cs a n ca nb hb).score.toRat = 0 ∧
      (calculate_match haystack needle cs a n ca nb hb).scorerInvoked = false := by
  cases needle with
  | nil => exact absurd (List.nil_sublist _) hsub
  | cons x xs =>
      have hlen : 0 < haystack.length := List.length_pos.mpr hhay
      simp only [calculate_match, List.length_cons, hlen]
      split_ifs with h1 h2 h3 h4 h5 h6 h7 h8
      all_goals try (cases (Nat.succ_ne_zero xs.length h1))
      all_goals try (exact ⟨toRat_zero, rfl⟩)
      all_goals try contradiction
      all_goals (rename_i hscan hhb; exact absurd (prescan_sublist _ _ _ _ hscan) hsub)


/-- C5: counterexample to the claim as stated — needle "a" is not a
subsequence of the empty haystack, yet `calculate_match` returns 1, because
the normal-case branch requires a non-empty haystack and the initial score 1
survives to the final return. -/
theorem c5_not_subsequence_counterexample :
    ¬ List.Sublist [97] (([] : List ℕ).map (foldCase false)) ∧
      (calculate_match [] [97] false false false false 0 0).score.toRat = 1 := by
  constructor
  · decide
  · have h : (calculate_match [] [97] false false false false 0 0).score = ⟨1, 1⟩ := by decide
    rw [h, toRat_one]

/-- C5 witness: the amended theorem applied to needle "z" and haystack "a". -/
theorem c5_not_subsequence_amended_witness :
    (calculate_match [97] [122] false false false false 0 0).score.toRat = 0 ∧
      (calculate_match [97] [122] false false false false 0 0).scorerInvoked = false :=
  c5_not_subsequence_amended [97] [122] false false false false 0 0 (by decide) (by decide)


/-- The mask component of the backward pre-scan ignores the needle cursor:
it is the fold of `maskOr` over the scanned characters. -/
theorem prescanAux_mask (cs cb : Bool) (needle : List ℕ) :
    ∀ (l : List ℕ) (i : ℕ) (rm : List ℕ) (ni : ℤ) (mask : Option ℕ),
    (prescanAux cs cb needle l i ⟨rm, ni, mask⟩).mask = maskScan cb mask l
  | [], _, _, _, _ => rfl
  | c0 :: rest, i, rm, ni, mask => by
      simp only [prescanAux, maskScan]
      by_cases h0 : (0 : ℤ) ≤ ni
      · by_cases hm : (if cs then c0 else downcase c0) = needle.getD ni.toNat 0
        · rw [if_pos h0, if_pos hm]
          exact prescanAux_mask cs cb needle rest (i - 1) (i :: rm) (ni - 1) _
        · rw [if_pos h0, if_neg hm]
          exact prescanAux_mask cs cb needle rest (i - 1) rm ni _
      · rw [if_neg h0]
        exact prescanAux_mask cs cb needle rest (i - 1) rm ni _

/-- Exact description of the accumulated bitmask when every scanned
character case-folds into the letter range a–z. -/
theorem maskScan_letters :
    ∀ (l : List ℕ) (m0 : ℕ), m0 < 2 ^ 26 →
    (∀ c ∈ l, 97 ≤ downcase c ∧ downcase c ≤ 122) →
    ∃ M, maskScan true (some m0) l = some M ∧ M < 2 ^ 26 ∧
      ∀ b, b < 26 → (M.testBit b = true ↔
        (m0.testBit b = true ∨ ∃ c ∈ l, downcase c = 97 + b))
  | [], m0, hm0, _ => ⟨m0, rfl, hm0, by simp⟩
  | c0 :: rest, m0, hm0, hall => by
      have hc := hall c0 (List.mem_cons_self c0 rest)
      have hstep : maskScan true (some m0) (c0 :: rest) =
          maskScan true (some (m0 ||| 2 ^ (downcase c0 - 97))) rest := by
        simp only [maskScan, maskOr, if_true]
        rw [if_pos ⟨hc.1, by omega⟩]
      have hlt : m0 ||| 2 ^ (downcase c0 - 97) < 2 ^ 26 :=
        Nat.or_lt_two_pow hm0 (Nat.pow_lt_pow_right (by norm_num) (by omega))
      obtain ⟨M, hM, hMlt, hbit⟩ := maskScan_letters rest (m0 ||| 2 ^ (downcase c0 - 97)) hlt
        (fun c hcm => hall c (List.mem_cons_of_mem _ hcm))
      refine ⟨M, by rw [hstep, hM], hMlt, ?_⟩
      intro b hb
      rw [hbit b hb, Nat.testBit_lor, Nat.testBit_two_pow]
      have he : (downcase c0 - 97 = b) ↔ (downcase c0 = 97 + b) := by omega
      simp only [Bool.or_eq_true, decide_eq_true_eq, he]
      constructor
      · rintro ((h | h) | h)
        · exact Or.inl h
        · exact Or.inr ⟨c0, List.mem_cons_self _ _, h⟩
        · obtain ⟨c, hcm, hcp⟩ := h
          exact Or.inr ⟨c, List.mem_cons_of_mem _ hcm, hcp⟩
      · rintro (h | ⟨c, hcm, hcp⟩)
        · exact Or.inl (Or.inl h)
        · rcases List.mem_cons.mp hcm with rfl | hcm2
          · exact Or.inl (Or.inr hcp)
          · exact Or.inr ⟨c, hcm2, hcp⟩

/-- C8 amended: restricted to haystacks whose characters all case-fold into
the letters a–z, the reported signature is below 2²⁶ and has, for each
lowercase letter, its bit set iff the letter occurs in the case-folded
haystack.  (The original claim extended this to all haystacks, but characters
folding above the letter range set bits outside the 26 positions — see the
counterexample — and characters folding below it make the C shift amount
negative, which is undefined.) -/
theorem c8_signature_amended (haystack needle : List ℕ) (cs a n ca : Bool) (nb : ℕ)
    (hhay : haystack ≠ []) (hnee : needle ≠ [])
    (hletters : ∀ c ∈ haystack, 97 ≤ downcase c ∧ downcase c ≤ 122) :
    ∃ M, (calculate_match haystack needle cs a n ca nb 0).outMask = some M ∧ M < 2 ^ 26 ∧
      ∀ b, b < 26 → (M.testBit b = true ↔ ∃ c ∈ haystack, downcase c = 97 + b) := by
  have hout : (calculate_match haystack needle cs a n ca nb 0).outMask =
      (prescan cs true needle haystack).mask := by
    cases needle with
    | nil => exact absurd rfl hnee
    | cons x xs =>
        have hlen : 0 < haystack.length := List.length_pos.mpr hhay
        simp only [calculate_match, List.length_cons, hlen]
        split_ifs <;> simp_all
  have hmask : (prescan cs true needle haystack).mask =
      maskScan true (some 0) haystack.reverse := by
    simp only [prescan]
    exact prescanAux_mask cs true needle haystack.reverse (haystack.length - 1) []
      ((needle.length : ℤ) - 1) (some 0)
  obtain ⟨M, hM, hMlt, hbit⟩ := maskScan_letters haystack.reverse 0 (by norm_num)
    (fun c hcm => hletters c (List.mem_reverse.mp hcm))
  refine ⟨M, by rw [hout, hmask, hM], hMlt, ?_⟩
  intro b hb
  rw [hbit b hb]
  simp [Nat.zero_testBit, List.mem_reverse]


/-- C8 witness: the amended theorem applied to needle "a", haystack "ab". -/
theorem c8_signature_amended_witness :
    ∃ M, (calculate_match [97, 98] [97] false false false false 1 0).outMask = some M ∧
      M < 2 ^ 26 ∧
      ∀ b, b < 26 → (M.testBit b = true ↔ ∃ c ∈ [97, 98], downcase c = 97 + b) :=
  c8_signature_amended [97, 98] [97] false false false false 1 (by decide) (by decide)
    (by decide)

end CommandT
